import Mathlib

/-!
Verification model of `bulletpointer` (bulletpointer.go).

The program reads a YAML configuration naming SVG images and "layers"
(lists of element ids to hide / show), mutates the `style` attribute of
the addressed elements, writes one SVG file per layer and shells out to
a rasterizer.  We embed the pure computational content:

* Go strings are modelled as Lean `String` (in this toolchain a wrapper
  around `List Char`); `strings.Split(s, ";")`, `strings.Join(_, ";")`
  and `strings.HasPrefix` are modelled character-exactly by `splitSemi`,
  `joinSemi` and `List.isPrefixOf`.
* etree elements are association lists of attributes
  (`SelectAttrValue` = first match with default, `CreateAttr` = replace
  first binding or append); an etree document is the list of all its
  elements in document order, and `FindElements("//[@id='x']")` is the
  filter of the elements whose `id` attribute equals `x`.
* `log.Fatalf` is modelled by the `GoResult.fatal` constructor; the
  filesystem is a function from paths to stat results; the side effects
  of `processImageLayer` (the `WriteToFile` call and the Inkscape
  invocation) are recorded as an event trace.  Reading the source SVG
  and writing output files are treated as always succeeding; fatal
  errors on those paths are not the subject of any claim below.
-/

/-- Result of a Go computation that may call `log.Fatalf`:
either a fatal termination with the formatted log message, or a value. -/
inductive GoResult (α : Type) where
  | fatal (msg : String)
  | ok (val : α)
deriving DecidableEq, Repr

/-- Model of Go `strings.Split(l, ";")` on the character list of the
string: splits at every semicolon; the empty string yields one empty
component, exactly as in Go. -/
def splitSemi : List Char → List (List Char)
  | [] => [[]]
  | c :: rest =>
    if c = ';' then [] :: splitSemi rest
    else
      match splitSemi rest with
      | [] => [[c]]
      | p :: ps => (c :: p) :: ps

/-- Model of Go `strings.Join(ps, ";")` on character lists. -/
def joinSemi : List (List Char) → List Char
  | [] => []
  | [p] => p
  | p :: q :: ps => p ++ ';' :: joinSemi (q :: ps)

/-- The characters of the Go string literal `"display:"`, the prefix the
code tests each style component against. -/
def displayKey : List Char := "display:".data

/-- Model of `strings.HasPrefix(component, "display:")`. -/
def isDisplayDecl (c : List Char) : Bool := displayKey.isPrefixOf c

/-- Whether a component contains `display:` anywhere — used to count
the display declarations present in a style string, including those the
prefix test of the code does not recognize. -/
def containsDisplayKey (c : List Char) : Bool := decide (displayKey <:+: c)

/-- The replacement component chosen by `setHidden`:
`display:none` when hiding, `display:inline` when showing. -/
def expectedComponent (hidden : Bool) : List Char :=
  if hidden then "display:none".data else "display:inline".data

/-- The component rewrite performed by the loop in `setHidden`: every
component with prefix `display:` is replaced in place (setting `done`),
and if none matched the expected component is appended. -/
def setHiddenComponents (comps : List (List Char)) (hidden : Bool) :
    List (List Char) :=
  let expected := expectedComponent hidden
  let replaced := comps.map fun c => if isDisplayDecl c then expected else c
  if comps.any isDisplayDecl then replaced else replaced ++ [expected]

/-- The style-attribute string computed by `setHidden` from the old
style-attribute string: split on `;`, rewrite components, join with `;`. -/
def setHiddenStyle (s : String) (hidden : Bool) : String :=
  String.mk (joinSemi (setHiddenComponents (splitSemi s.data) hidden))

/-- Model of an etree element: its attribute list in document order.
Attribute keys and values are strings; XML keeps at most one attribute
per key, but the model does not need that assumption. -/
structure GoElement where
  attrs : List (String × String)
deriving DecidableEq, Repr

/-- Helper for `CreateAttr`: replace the value of the first binding of
`key`, or append a new binding if none exists (etree semantics). -/
def setAttr : List (String × String) → String → String → List (String × String)
  | [], key, value => [(key, value)]
  | (k, v) :: rest, key, value =>
    if k = key then (k, value) :: rest else (k, v) :: setAttr rest key value

/-- Model of etree `element.SelectAttr(key)` restricted to the value:
the value of the first attribute with the given key, if any. -/
def findAttr (e : GoElement) (key : String) : Option String :=
  (e.attrs.find? fun p => decide (p.1 = key)).map fun p => p.2

/-- Model of etree `element.SelectAttrValue(key, dflt)`. -/
def selectAttrValue (e : GoElement) (key dflt : String) : String :=
  match findAttr e key with
  | some v => v
  | none => dflt

/-- Model of etree `element.CreateAttr(key, value)`. -/
def createAttr (e : GoElement) (key value : String) : GoElement :=
  ⟨setAttr e.attrs key value⟩

/-- Model of `setHidden(element, hidden)`: read the `style` attribute
(empty string when absent), rewrite it with `setHiddenStyle`, and
unconditionally write it back with `CreateAttr`. -/
def setHidden (e : GoElement) (hidden : Bool) : GoElement :=
  createAttr e "style" (setHiddenStyle (selectAttrValue e "style" "") hidden)

/-- An element matches the XPath filter `[@id='x']` when its `id`
attribute equals `x`. -/
def hasId (e : GoElement) (id : String) : Bool :=
  decide (findAttr e "id" = some id)

/-- Model of an etree document: its elements in document order. -/
abbrev Document := List GoElement

/-- Model of `doc.FindElements("//[@id='" ++ id ++ "']")`: every element
of the document whose `id` attribute equals the given id. -/
def findElementsById (doc : Document) (id : String) : List GoElement :=
  doc.filter fun e => hasId e id

/-- Model of `assertOneElementById`: the unique matching element, or a
fatal log (`log.Fatalf`) naming the expected id and the actual count
when the match count differs from one. -/
def assertOneElementById (doc : Document) (id : String) : GoResult GoElement :=
  match findElementsById doc id with
  | [e] => GoResult.ok e
  | es =>
    GoResult.fatal
      ("Expected one #" ++ id ++ " element; found " ++ toString es.length)

/-- One hide/show step of `processImageLayer`: look up the unique
element carrying `id` (fatal if the count differs from one) and mutate
it in place with `setHidden`.  On success exactly one element matches,
so the guarded map rewrites precisely the returned element. -/
def setHiddenById (doc : Document) (id : String) (hidden : Bool) :
    GoResult Document :=
  match assertOneElementById doc id with
  | GoResult.fatal msg => GoResult.fatal msg
  | GoResult.ok _ =>
    GoResult.ok (doc.map fun e => if hasId e id then setHidden e hidden else e)

/-- One of the two loops of `processImageLayer`: apply
`setHidden(·, hidden)` to the unique element of each id in order. -/
def applyIds (doc : Document) (ids : List String) (hidden : Bool) :
    GoResult Document :=
  match ids with
  | [] => GoResult.ok doc
  | id :: rest =>
    match setHiddenById doc id hidden with
    | GoResult.fatal m => GoResult.fatal m
    | GoResult.ok d => applyIds d rest hidden

/-- The `ImageLayer` struct: suffix plus the `hide_ids` and `show_ids`
lists (absent YAML keys decode to the empty list). -/
structure ImageLayer where
  Suffix : String
  HideIDs : List String
  ShowIDs : List String
deriving DecidableEq, Repr

/-- The `Image` struct: source filename plus its ordered layers. -/
structure Image where
  Filename : String
  Layers : List ImageLayer
deriving DecidableEq, Repr

/-- The document mutation performed by `processImageLayer`: first every
id of `HideIDs` is hidden, then every id of `ShowIDs` is shown, each
list in its own order. -/
def processLayerDoc (layer : ImageLayer) (doc : Document) :
    GoResult Document :=
  match applyIds doc layer.HideIDs true with
  | GoResult.fatal m => GoResult.fatal m
  | GoResult.ok d1 => applyIds d1 layer.ShowIDs false

/-- The cumulative effect of a run of `applyIds` on one element: each id
whose lookup selected this element triggers a `setHidden` on it. -/
def elemChain (e : GoElement) (ids : List String) (hidden : Bool) :
    GoElement :=
  ids.foldl (fun acc id => if hasId acc id then setHidden acc hidden else acc) e

/-- Result of `os.Stat`: the path is missing (any error), or found with
the given regularity of its file mode. -/
inductive StatResult where
  | notFound
  | found (regular : Bool)
deriving DecidableEq, Repr

/-- Observable side effects of the image processor: an SVG serialization
(`doc.WriteToFile`) or one Inkscape invocation with its export filename,
export width and height, and input path argument. -/
inductive Event where
  | writeVector (path : String)
  | rasterize (outPng : String) (width height : Nat) (input : String)
deriving DecidableEq, Repr

/-- Model of Go `filepath.Join(dir, name)` for the cleaned simple paths
this program builds (no `..`, no duplicate separators). -/
def filepathJoin (dir name : String) : String :=
  if dir = "" then name else String.mk (dir.data ++ '/' :: name.data)

/-- Model of Go `filepath.Base` for nonempty cleaned paths: the part
after the last separator. -/
def filepathBase (s : String) : String :=
  String.mk (s.data.foldl (fun acc c => if c = '/' then [] else acc ++ [c]) [])

/-- Model of Go `filepath.Ext` on a base name (no separators): the
suffix starting at the final dot, empty when there is no dot. -/
def filepathExt (s : String) : String :=
  String.mk (s.data.foldl
    (fun acc c => if c = '.' then ['.']
      else if acc = [] then [] else acc ++ [c]) [])

/-- Model of Go `filepath.Dir` for cleaned paths: everything before the
last separator, `"."` when there is none, `"/"` at the root. -/
def filepathDir (s : String) : String :=
  match s.data.reverse.dropWhile (fun c => c ≠ '/') with
  | [] => "."
  | _ :: rest => if rest = [] then "/" else String.mk rest.reverse

/-- Go slicing `s[0 : len(s)-len(ext)]`, the stem computation of
`processImage`. -/
def stripSuffixLen (s ext : String) : String :=
  String.mk (s.data.take (s.data.length - ext.data.length))

/-- Model of `strings.ToLower` (ASCII case folding suffices here). -/
def strToLower (s : String) : String :=
  String.mk (s.data.map Char.toLower)

/-- Go `outFile[0 : len(outFile)-4] + ".png"`, the raster path derived
in `processImageLayer` from the already-validated `.svg` output path. -/
def pngPath (s : String) : String :=
  String.mk (s.data.take (s.data.length - 4) ++ ".png".data)

/-- The path `inDir/filename` resolved at the top of `processImage`. -/
def sourcePath (inDir : String) (image : Image) : String :=
  filepathJoin inDir image.Filename

/-- The two side effects `processImageLayer` produces for one layer
once its document mutation succeeded: write the SVG, then invoke
Inkscape with `--export-filename=<png>`, `--export-width=1280`,
`--export-height=720` and the SVG path as input. -/
def layerEvents (outDir outStem outExt : String) (layer : ImageLayer) :
    List Event :=
  let outFile := filepathJoin outDir (outStem ++ layer.Suffix ++ outExt)
  [Event.writeVector outFile,
    Event.rasterize (pngPath outFile) 1280 720 outFile]

/-- The layer loop of `processImage`: for each layer in order, mutate
the (shared, reused) document, write the SVG and rasterize it.  The
trace lists the events up to the first fatal error, if any. -/
def processLayers (layers : List ImageLayer) (doc : Document)
    (outDir outStem outExt : String) : List Event × Option String :=
  match layers with
  | [] => ([], none)
  | layer :: rest =>
    match processLayerDoc layer doc with
    | GoResult.fatal m => ([], some m)
    | GoResult.ok doc' =>
      (Event.writeVector (filepathJoin outDir (outStem ++ layer.Suffix ++ outExt)) ::
        Event.rasterize
          (pngPath (filepathJoin outDir (outStem ++ layer.Suffix ++ outExt)))
          1280 720 (filepathJoin outDir (outStem ++ layer.Suffix ++ outExt)) ::
        (processLayers rest doc' outDir outStem outExt).1,
        (processLayers rest doc' outDir outStem outExt).2)

/-- Model of `processImage`: stat the resolved source path (fatal when
missing or irregular), compute stem and extension of its base name,
check the extension is `.svg` case-insensitively (fatal otherwise),
then run the layer loop on the loaded document `doc`. -/
def processImage (image : Image) (fs : String → StatResult) (doc : Document)
    (inDir outDir : String) : List Event × Option String :=
  match fs (sourcePath inDir image) with
  | StatResult.notFound =>
    ([], some ("Source file needs to exist: " ++ sourcePath inDir image))
  | StatResult.found regular =>
    if regular then
      if strToLower (filepathExt (filepathBase (sourcePath inDir image)))
          = ".svg" then
        processLayers image.Layers doc outDir
          (stripSuffixLen (filepathBase (sourcePath inDir image))
            (filepathExt (filepathBase (sourcePath inDir image))))
          (filepathExt (filepathBase (sourcePath inDir image)))
      else ([], some ("Expected .svg file but got " ++ sourcePath inDir image))
    else
      ([], some ("Input file " ++ sourcePath inDir image
        ++ " is not regular file"))

/-- The image loop of `main`: process each image in order, stopping at
the first fatal error; `docFor` gives the document parsed from each
source path. -/
def runImages (images : List Image) (fs : String → StatResult)
    (docFor : String → Document) (inDir outDir : String) :
    List Event × Option String :=
  match images with
  | [] => ([], none)
  | image :: rest =>
    match processImage image fs (docFor (sourcePath inDir image)) inDir outDir with
    | (evs, some m) => (evs, some m)
    | (evs, none) =>
      (evs ++ (runImages rest fs docFor inDir outDir).1,
        (runImages rest fs docFor inDir outDir).2)

/-- Model of the loop at the end of `main`: every image is processed
with input directory `filepath.Dir(configPath)` (the directory holding
the YAML file) and the given output directory. -/
def runMain (cfgPath outDir : String) (images : List Image)
    (fs : String → StatResult) (docFor : String → Document) :
    List Event × Option String :=
  runImages images fs docFor (filepathDir cfgPath) outDir

theorem splitSemi_ne_nil (l : List Char) : splitSemi l ≠ [] := by
  induction l with
  | nil => simp [splitSemi]
  | cons c rest ih =>
    simp only [splitSemi]
    split
    · simp
    · cases h : splitSemi rest with
      | nil => exact absurd h ih
      | cons p ps => simp

theorem splitSemi_cons_ne {c : Char} {rest p : List Char} {ps : List (List Char)}
    (hc : c ≠ ';') (h : splitSemi rest = p :: ps) :
    splitSemi (c :: rest) = (c :: p) :: ps := by
  simp only [splitSemi, if_neg hc, h]

/-- A semicolon-free string splits into itself as single component. -/
theorem splitSemi_no_semi {p : List Char} (h : ';' ∉ p) : splitSemi p = [p] := by
  induction p with
  | nil => rfl
  | cons c rest ih =>
    have hc : c ≠ ';' := fun he => h (he ▸ List.mem_cons_self c rest)
    have hrest : ';' ∉ rest := fun hm => h (List.mem_cons_of_mem c hm)
    exact splitSemi_cons_ne hc (ih hrest)

theorem splitSemi_append {p : List Char} (t : List Char) (h : ';' ∉ p) :
    splitSemi (p ++ ';' :: t) = p :: splitSemi t := by
  induction p with
  | nil => simp [splitSemi]
  | cons c rest ih =>
    have hc : c ≠ ';' := fun he => h (he ▸ List.mem_cons_self c rest)
    have hrest : ';' ∉ rest := fun hm => h (List.mem_cons_of_mem c hm)
    exact splitSemi_cons_ne hc (ih hrest)

/-- Splitting is a left inverse of joining for nonempty lists of
semicolon-free components (Go `Split(Join(ps, ";"), ";") = ps`). -/
theorem splitSemi_joinSemi {ps : List (List Char)} (hne : ps ≠ [])
    (hfree : ∀ p ∈ ps, ';' ∉ p) : splitSemi (joinSemi ps) = ps := by
  induction ps with
  | nil => exact absurd rfl hne
  | cons p rest ih =>
    cases rest with
    | nil =>
      simp only [joinSemi]
      exact splitSemi_no_semi (hfree p (List.mem_cons_self p []))
    | cons q rest' =>
      have hp : ';' ∉ p := hfree p (List.mem_cons_self p _)
      have hrest : ∀ x ∈ q :: rest', ';' ∉ x :=
        fun x hx => hfree x (List.mem_cons_of_mem p hx)
      simp only [joinSemi]
      rw [splitSemi_append _ hp, ih (by simp) hrest]

/-- Every component produced by `splitSemi` is semicolon-free. -/
theorem mem_splitSemi_no_semi {l : List Char} :
    ∀ p ∈ splitSemi l, ';' ∉ p := by
  induction l with
  | nil =>
    intro p hp
    simp [splitSemi] at hp
    simp [hp]
  | cons c rest ih =>
    intro p hp
    by_cases hc : c = ';'
    · subst hc
      simp only [splitSemi, if_pos rfl] at hp
      rcases List.mem_cons.mp hp with h | h
      · simp [h]
      · exact ih p h
    · cases h : splitSemi rest with
      | nil => exact absurd h (splitSemi_ne_nil rest)
      | cons q qs =>
        rw [splitSemi_cons_ne hc h] at hp
        rcases List.mem_cons.mp hp with h1 | h1
        · subst h1
          intro hmem
          rcases List.mem_cons.mp hmem with h2 | h2
          · exact hc h2.symm
          · exact ih q (h ▸ List.mem_cons_self q qs) h2
        · exact ih p (h ▸ List.mem_cons_of_mem q h1)

theorem expectedComponent_no_semi (hidden : Bool) :
    ';' ∉ expectedComponent hidden := by
  cases hidden <;> decide

theorem isDisplayDecl_expectedComponent (hidden : Bool) :
    isDisplayDecl (expectedComponent hidden) = true := by
  cases hidden <;> decide

theorem setHiddenComponents_ne_nil (comps : List (List Char)) (hidden : Bool) :
    setHiddenComponents comps hidden ≠ [] := by
  simp only [setHiddenComponents]
  split
  · rename_i hany
    cases comps with
    | nil => simp at hany
    | cons c cs => simp
  · simp

theorem setHiddenComponents_no_semi {comps : List (List Char)} {hidden : Bool}
    (hfree : ∀ c ∈ comps, ';' ∉ c) :
    ∀ p ∈ setHiddenComponents comps hidden, ';' ∉ p := by
  intro p hp
  simp only [setHiddenComponents] at hp
  have hmap : ∀ q ∈ comps.map (fun c => if isDisplayDecl c
      then expectedComponent hidden else c), ';' ∉ q := by
    intro q hq
    rcases List.mem_map.mp hq with ⟨c, hc, hfc⟩
    by_cases hd : isDisplayDecl c
    · rw [← hfc, if_pos hd]
      exact expectedComponent_no_semi hidden
    · rw [← hfc, if_neg hd]
      exact hfree c hc
  split at hp
  · exact hmap p hp
  · rcases List.mem_append.mp hp with h | h
    · exact hmap p h
    · rw [List.mem_singleton.mp h]
      exact expectedComponent_no_semi hidden

/-- Splitting the result of `setHiddenStyle` recovers exactly the
rewritten component list. -/
theorem splitSemi_setHiddenStyle (s : String) (hidden : Bool) :
    splitSemi (setHiddenStyle s hidden).data =
      setHiddenComponents (splitSemi s.data) hidden := by
  show splitSemi (joinSemi (setHiddenComponents (splitSemi s.data) hidden)) = _
  exact splitSemi_joinSemi (setHiddenComponents_ne_nil _ _)
    (setHiddenComponents_no_semi (fun c hc => mem_splitSemi_no_semi c hc))

/-- The expected component always occurs in the rewritten list
(either some component matched and was replaced, or it was appended). -/
theorem expectedComponent_mem_setHiddenComponents
    (comps : List (List Char)) (hidden : Bool) :
    expectedComponent hidden ∈ setHiddenComponents comps hidden := by
  simp only [setHiddenComponents]
  split
  · rename_i hany
    rcases List.any_eq_true.mp hany with ⟨c, hc, hd⟩
    exact List.mem_map.mpr ⟨c, hc, by rw [if_pos hd]⟩
  · exact List.mem_append.mpr (Or.inr (List.mem_singleton.mpr rfl))

/-- After the rewrite, every component carrying the `display:` prefix is
exactly the expected component. -/
theorem prefix_eq_expected_of_mem_setHiddenComponents
    {comps : List (List Char)} {hidden : Bool} :
    ∀ x ∈ setHiddenComponents comps hidden,
      isDisplayDecl x = true → x = expectedComponent hidden := by
  intro x hx hdx
  simp only [setHiddenComponents] at hx
  have hmap : x ∈ comps.map (fun c => if isDisplayDecl c
      then expectedComponent hidden else c) → x = expectedComponent hidden := by
    intro hq
    rcases List.mem_map.mp hq with ⟨c, hc, hfc⟩
    by_cases hd : isDisplayDecl c
    · rw [← hfc, if_pos hd]
    · rw [← hfc, if_neg hd] at hdx ⊢
      exact absurd hdx hd
  split at hx
  · exact hmap hx
  · rcases List.mem_append.mp hx with h | h
    · exact hmap h
    · exact List.mem_singleton.mp h

theorem list_map_id_of_mem {α : Type} {l : List α} {f : α → α}
    (h : ∀ x ∈ l, f x = x) : l.map f = l := by
  induction l with
  | nil => rfl
  | cons a l ih =>
    simp only [List.map_cons, h a (List.mem_cons_self a l)]
    rw [ih (fun x hx => h x (List.mem_cons_of_mem a hx))]

/-- Rewriting a component list that already carries the expected
component, and whose `display:`-prefixed components all equal it,
changes nothing. -/
theorem setHiddenComponents_stable {comps : List (List Char)} {hidden : Bool}
    (hall : ∀ x ∈ comps, isDisplayDecl x = true → x = expectedComponent hidden)
    (hmem : expectedComponent hidden ∈ comps) :
    setHiddenComponents comps hidden = comps := by
  have hany : comps.any isDisplayDecl = true :=
    List.any_eq_true.mpr
      ⟨expectedComponent hidden, hmem, isDisplayDecl_expectedComponent hidden⟩
  simp only [setHiddenComponents, hany, if_pos]
  apply list_map_id_of_mem
  intro x hx
  by_cases hd : isDisplayDecl x
  · rw [if_pos hd, hall x hx hd]
  · rw [if_neg hd]

/-- Applying the style rewrite twice with the same flag is the same as
applying it once. -/
theorem setHiddenStyle_idem (s : String) (hidden : Bool) :
    setHiddenStyle (setHiddenStyle s hidden) hidden =
      setHiddenStyle s hidden := by
  show String.mk (joinSemi (setHiddenComponents
      (splitSemi (setHiddenStyle s hidden).data) hidden)) = _
  rw [splitSemi_setHiddenStyle]
  rw [setHiddenComponents_stable
    (fun x hx hdx => prefix_eq_expected_of_mem_setHiddenComponents x hx hdx)
    (expectedComponent_mem_setHiddenComponents _ _)]
  rfl

theorem findAttr_createAttr_same (e : GoElement) (key value : String) :
    findAttr (createAttr e key value) key = some value := by
  show ((setAttr e.attrs key value).find? fun p => decide (p.1 = key)).map
      (fun p => p.2) = some value
  induction e.attrs with
  | nil => simp [setAttr]
  | cons kv rest ih =>
    obtain ⟨k, v⟩ := kv
    by_cases hk : k = key
    · simp [setAttr, hk]
    · simp only [setAttr, if_neg hk]
      rw [List.find?_cons_of_neg _ (by simp [hk])]
      exact ih

theorem selectAttrValue_createAttr_same (e : GoElement) (key value d : String) :
    selectAttrValue (createAttr e key value) key d = value := by
  simp [selectAttrValue, findAttr_createAttr_same]

theorem findAttr_createAttr_ne (e : GoElement) {key key' : String}
    (value : String) (hne : key' ≠ key) :
    findAttr (createAttr e key value) key' = findAttr e key' := by
  show ((setAttr e.attrs key value).find? fun p => decide (p.1 = key')).map
      (fun p => p.2) = (e.attrs.find? fun p => decide (p.1 = key')).map
      (fun p => p.2)
  induction e.attrs with
  | nil =>
    simp only [setAttr]
    rw [List.find?_cons_of_neg _ (by simp [Ne.symm hne])]
  | cons kv rest ih =>
    obtain ⟨k, v⟩ := kv
    by_cases hk : k = key
    · subst hk
      have hsa : setAttr ((k, v) :: rest) k value = (k, value) :: rest := by
        simp [setAttr]
      rw [hsa, List.find?_cons_of_neg _ (by simp [Ne.symm hne]),
        List.find?_cons_of_neg _ (by simp [Ne.symm hne])]
    · have hsa : setAttr ((k, v) :: rest) key value =
          (k, v) :: setAttr rest key value := by
        simp [setAttr, hk]
      by_cases hk' : k = key'
      · rw [hsa, List.find?_cons_of_pos _ (by simp [hk']),
          List.find?_cons_of_pos _ (by simp [hk'])]
      · rw [hsa, List.find?_cons_of_neg _ (by simp [hk']),
          List.find?_cons_of_neg _ (by simp [hk'])]
        exact ih

/-- The style attribute after `setHidden` is exactly the rewritten
string, and it is present even when nothing changed. -/
theorem findAttr_setHidden (e : GoElement) (hidden : Bool) :
    findAttr (setHidden e hidden) "style" =
      some (setHiddenStyle (selectAttrValue e "style" "") hidden) :=
  findAttr_createAttr_same e "style" _

theorem selectAttrValue_setHidden (e : GoElement) (hidden : Bool) :
    selectAttrValue (setHidden e hidden) "style" "" =
      setHiddenStyle (selectAttrValue e "style" "") hidden :=
  selectAttrValue_createAttr_same e "style" _ ""

/-- An `id` attribute is untouched by `setHidden`. -/
theorem findAttr_setHidden_id (e : GoElement) (hidden : Bool) :
    findAttr (setHidden e hidden) "id" = findAttr e "id" :=
  findAttr_createAttr_ne e _ (by decide)

/-- The component rewrite, stated as the claim describes it: when some
component carries the `display:` prefix every such component is
replaced in place and the others are untouched; otherwise the original
components are kept and the expected one is appended. -/
theorem setHiddenComponents_eq (comps : List (List Char)) (hidden : Bool) :
    setHiddenComponents comps hidden =
      if comps.any isDisplayDecl then
        comps.map fun c => if isDisplayDecl c then expectedComponent hidden else c
      else comps ++ [expectedComponent hidden] := by
  simp only [setHiddenComponents]
  cases hany : comps.any isDisplayDecl
  · simp only [hany, Bool.false_eq_true, if_false]
    congr 1
    apply list_map_id_of_mem
    intro x hx
    have hfx : ¬ isDisplayDecl x = true :=
      (List.any_eq_false.mp hany) x hx
    rw [if_neg hfx]
  · simp only [hany, if_true]

/-- Claim C1, counterexample: the element with no attributes has no
pre-existing `style` attribute, yet `setHidden(e, true)` produces the
style string `";display:none"`, not `"display:none"` (Go splits the
empty string into one empty component, which is kept and joined back). -/
theorem claim_C1_counterexample :
    findAttr ⟨[]⟩ "style" = none ∧
      selectAttrValue (setHidden ⟨[]⟩ true) "style" "" ≠ "display:none" := by
  decide

/-- Claim C1, amended: for every element with no pre-existing `style`
attribute, `setHidden(e, true)` results in the style attribute string
`";display:none"` (the empty original splits into a single empty
component which is preserved before the appended declaration); and for
every element whose style attribute is exactly `"color:red"`,
`setHidden(e, true)` results in `"color:red;display:none"`. -/
theorem claim_C1_amended (e : GoElement) :
    (findAttr e "style" = none →
      selectAttrValue (setHidden e true) "style" "" = ";display:none") ∧
    (findAttr e "style" = some "color:red" →
      selectAttrValue (setHidden e true) "style" "" =
        "color:red;display:none") := by
  constructor
  · intro h
    rw [selectAttrValue_setHidden,
      show selectAttrValue e "style" "" = "" by simp [selectAttrValue, h]]
    decide
  · intro h
    rw [selectAttrValue_setHidden,
      show selectAttrValue e "style" "" = "color:red" by
        simp [selectAttrValue, h]]
    decide

/-- Witness for the amended claim C1 at concrete elements: one with no
attributes at all, one whose style attribute is exactly `color:red`. -/
theorem claim_C1_amended_witness :
    selectAttrValue (setHidden ⟨[]⟩ true) "style" "" = ";display:none" ∧
      selectAttrValue (setHidden ⟨[("style", "color:red")]⟩ true) "style" ""
        = "color:red;display:none" :=
  ⟨(claim_C1_amended ⟨[]⟩).1 (by decide),
    (claim_C1_amended ⟨[("style", "color:red")]⟩).2 (by decide)⟩

/-- Claim C2: `setHidden(e, h)` replaces every semicolon-delimited style
component starting with `display:` (not only the first) with the new
declaration, preserving each component's position and leaving the other
components unchanged (when no component matches, the new declaration is
appended instead), and it always writes the style attribute back — the
attribute of the result is unconditionally the rewritten string, even
when that string equals the original. -/
theorem claim_C2 (e : GoElement) (hidden : Bool) :
    findAttr (setHidden e hidden) "style" =
      some (setHiddenStyle (selectAttrValue e "style" "") hidden) ∧
    splitSemi (setHiddenStyle (selectAttrValue e "style" "") hidden).data =
      (if (splitSemi (selectAttrValue e "style" "").data).any isDisplayDecl then
        (splitSemi (selectAttrValue e "style" "").data).map
          fun c => if isDisplayDecl c then expectedComponent hidden else c
      else (splitSemi (selectAttrValue e "style" "").data)
        ++ [expectedComponent hidden]) :=
  ⟨findAttr_setHidden e hidden,
    by rw [splitSemi_setHiddenStyle, setHiddenComponents_eq]⟩

/-- Claim C4: `setHidden(e, true)` is idempotent on the style attribute:
applying it twice yields the same style attribute string as once. -/
theorem claim_C4 (e : GoElement) :
    selectAttrValue (setHidden (setHidden e true) true) "style" "" =
      selectAttrValue (setHidden e true) "style" "" := by
  rw [selectAttrValue_setHidden, selectAttrValue_setHidden,
    setHiddenStyle_idem]

/-- Claim C5: after `setHidden(e, true)` followed by `setHidden(e,
false)`, whatever the original style (including an original
`display:block`), the resulting style attribute carries the declaration
`display:inline`, and every `display:`-prefixed component of it equals
`display:inline`. -/
theorem claim_C5 (e : GoElement) :
    expectedComponent false ∈ splitSemi
      (selectAttrValue (setHidden (setHidden e true) false) "style" "").data ∧
    ∀ c ∈ splitSemi
      (selectAttrValue (setHidden (setHidden e true) false) "style" "").data,
      isDisplayDecl c = true → c = expectedComponent false := by
  rw [selectAttrValue_setHidden, splitSemi_setHiddenStyle]
  exact ⟨expectedComponent_mem_setHiddenComponents _ _,
    fun c hc hd => prefix_eq_expected_of_mem_setHiddenComponents c hc hd⟩

/-- Witness for claim C5 at an element whose original display value is
`block`: the round-trip produces the `display:inline` declaration. -/
theorem claim_C5_witness :
    expectedComponent false ∈ splitSemi (selectAttrValue
      (setHidden (setHidden ⟨[("style", "display:block")]⟩ true) false)
      "style" "").data ∧
    "display:inline".data = expectedComponent false :=
  ⟨(claim_C5 ⟨[("style", "display:block")]⟩).1,
    (claim_C5 ⟨[("style", "display:block")]⟩).2 "display:inline".data
      (by decide) (by decide)⟩

/-- Claim C3: `assertOneElementById` returns an element exactly when the
document holds exactly one element with the given id, the returned
element is that matching one, and with zero or several matches it
instead reports a fatal error built from the expected id and the actual
match count. -/
theorem claim_C3 (doc : Document) (id : String) :
    (∀ e, findElementsById doc id = [e] →
      assertOneElementById doc id = GoResult.ok e) ∧
    (∀ e, assertOneElementById doc id = GoResult.ok e →
      findElementsById doc id = [e]) ∧
    ((findElementsById doc id).length ≠ 1 →
      assertOneElementById doc id = GoResult.fatal
        ("Expected one #" ++ id ++ " element; found " ++
          toString (findElementsById doc id).length)) := by
  refine ⟨?_, ?_, ?_⟩
  · intro e he
    unfold assertOneElementById
    rw [he]
  · intro e he
    unfold assertOneElementById at he
    cases h : findElementsById doc id with
    | nil =>
      rw [h] at he
      exact GoResult.noConfusion he
    | cons e1 rest =>
      cases rest with
      | nil =>
        rw [h] at he
        have he' : GoResult.ok e1 = GoResult.ok e := he
        injection he' with hh
        rw [hh]
      | cons e2 rest' =>
        rw [h] at he
        exact GoResult.noConfusion he
  · intro hlen
    unfold assertOneElementById
    cases h : findElementsById doc id with
    | nil => rfl
    | cons e1 rest =>
      cases rest with
      | nil =>
        rw [h] at hlen
        simp at hlen
      | cons e2 rest' => rfl

/-- Witness for claim C3: a singleton match returns the element, and an
empty document produces the fatal message with count zero. -/
theorem claim_C3_witness :
    assertOneElementById [GoElement.mk [("id", "a")]] "a" =
      GoResult.ok (GoElement.mk [("id", "a")]) ∧
    assertOneElementById ([] : Document) "b" = GoResult.fatal
      ("Expected one #" ++ "b" ++ " element; found " ++
        toString (findElementsById ([] : Document) "b").length) :=
  ⟨(claim_C3 [GoElement.mk [("id", "a")]] "a").1 _ (by decide),
    (claim_C3 ([] : Document) "b").2.2 (by decide)⟩

theorem hasId_setHidden (e : GoElement) (hidden : Bool) (id : String) :
    hasId (setHidden e hidden) id = hasId e id := by
  simp [hasId, findAttr_setHidden_id]

theorem hasId_elemChain (e : GoElement) (ids : List String) (hidden : Bool)
    (id : String) : hasId (elemChain e ids hidden) id = hasId e id := by
  induction ids generalizing e with
  | nil => rfl
  | cons i rest ih =>
    have hstep : elemChain e (i :: rest) hidden =
        elemChain (if hasId e i then setHidden e hidden else e) rest hidden :=
      rfl
    rw [hstep, ih]
    cases hh : hasId e i
    · simp [hh]
    · simp [hh, hasId_setHidden]

/-- A chain of lookups over ids that never select the element leaves the
element unchanged. -/
theorem elemChain_of_none {e : GoElement} {ids : List String} (hidden : Bool)
    (h : ∀ i ∈ ids, hasId e i = false) : elemChain e ids hidden = e := by
  induction ids with
  | nil => rfl
  | cons i rest ih =>
    have hstep : elemChain e (i :: rest) hidden =
        elemChain (if hasId e i then setHidden e hidden else e) rest hidden :=
      rfl
    rw [hstep, if_neg (by simp [h i (List.mem_cons_self i rest)])]
    exact ih fun j hj => h j (List.mem_cons_of_mem i hj)

/-- An element addressed by id `i` is not addressed by any other id. -/
theorem hasId_unique {e : GoElement} {i j : String}
    (hi : hasId e i = true) (hne : j ≠ i) : hasId e j = false := by
  have hi' : findAttr e "id" = some i := by simpa [hasId] using hi
  simp [hasId, hi', Ne.symm hne]

/-- After `setHidden(e, hidden)` the element's style carries exactly the
expected display declaration. -/
theorem setHidden_display (e : GoElement) (hidden : Bool) :
    expectedComponent hidden ∈
      splitSemi (selectAttrValue (setHidden e hidden) "style" "").data ∧
    ∀ c ∈ splitSemi (selectAttrValue (setHidden e hidden) "style" "").data,
      isDisplayDecl c = true → c = expectedComponent hidden := by
  rw [selectAttrValue_setHidden, splitSemi_setHiddenStyle]
  exact ⟨expectedComponent_mem_setHiddenComponents _ _,
    fun c hc hd => prefix_eq_expected_of_mem_setHiddenComponents c hc hd⟩

/-- If an element's id occurs in the id list, the chained application
leaves the element displayed according to the flag. -/
theorem elemChain_display {e : GoElement} {ids : List String} {id : String}
    (hidden : Bool) (hmem : id ∈ ids) (hid : hasId e id = true) :
    expectedComponent hidden ∈
      splitSemi (selectAttrValue (elemChain e ids hidden) "style" "").data ∧
    ∀ c ∈ splitSemi (selectAttrValue (elemChain e ids hidden) "style" "").data,
      isDisplayDecl c = true → c = expectedComponent hidden := by
  induction ids generalizing e with
  | nil => cases hmem
  | cons i rest ih =>
    have hstep : elemChain e (i :: rest) hidden =
        elemChain (if hasId e i then setHidden e hidden else e) rest hidden :=
      rfl
    rw [hstep]
    by_cases hr : id ∈ rest
    · refine ih hr ?_
      cases hh : hasId e i
      · simpa [hh] using hid
      · simp [hh, hasId_setHidden, hid]
    · have hii : id = i := by
        rcases List.mem_cons.mp hmem with h | h
        · exact h
        · exact absurd h hr
      subst hii
      rw [if_pos (by simp [hid])]
      rw [elemChain_of_none hidden fun j hj => by
        rw [hasId_setHidden]
        exact hasId_unique hid fun hji => hr (hji ▸ hj)]
      exact setHidden_display e hidden

theorem setHiddenById_ok {doc d : Document} {id : String} {hidden : Bool}
    (h : setHiddenById doc id hidden = GoResult.ok d) :
    d = doc.map fun e => if hasId e id then setHidden e hidden else e := by
  unfold setHiddenById at h
  cases ha : assertOneElementById doc id with
  | fatal m =>
    rw [ha] at h
    exact GoResult.noConfusion h
  | ok el =>
    rw [ha] at h
    have h' : GoResult.ok
        (doc.map fun e => if hasId e id then setHidden e hidden else e) =
        GoResult.ok d := h
    injection h' with hh
    exact hh.symm

/-- A successful `applyIds` run rewrites each element of the document by
the chain of its matching lookups. -/
theorem applyIds_ok {doc doc' : Document} {ids : List String} {hidden : Bool}
    (h : applyIds doc ids hidden = GoResult.ok doc') :
    doc' = doc.map fun e => elemChain e ids hidden := by
  induction ids generalizing doc with
  | nil =>
    have h' : GoResult.ok doc = GoResult.ok doc' := h
    injection h' with hh
    rw [← hh]
    exact (list_map_id_of_mem fun e _ => rfl).symm
  | cons i rest ih =>
    unfold applyIds at h
    cases hs : setHiddenById doc i hidden with
    | fatal m =>
      rw [hs] at h
      exact GoResult.noConfusion h
    | ok d =>
      rw [hs] at h
      have h' : applyIds d rest hidden = GoResult.ok doc' := h
      rw [ih h', setHiddenById_ok hs, List.map_map]
      rfl

/-- Claim C6: `processImageLayer` applies all `hide_ids` before any
`show_ids`, each list in its own order (this is the structure of
`processLayerDoc`); consequently, when an id occurs in both lists of a
layer and the layer's mutation succeeds, every element carrying that id
ends with display value `inline` — the show, applied second, wins. -/
theorem claim_C6 (layer : ImageLayer) (doc doc' : Document) (id : String)
    (hproc : processLayerDoc layer doc = GoResult.ok doc')
    (_hhide : id ∈ layer.HideIDs) (hshow : id ∈ layer.ShowIDs) :
    ∀ e ∈ doc', hasId e id = true →
      expectedComponent false ∈
        splitSemi (selectAttrValue e "style" "").data ∧
      ∀ c ∈ splitSemi (selectAttrValue e "style" "").data,
        isDisplayDecl c = true → c = expectedComponent false := by
  unfold processLayerDoc at hproc
  cases hh : applyIds doc layer.HideIDs true with
  | fatal m =>
    rw [hh] at hproc
    exact GoResult.noConfusion hproc
  | ok d1 =>
    rw [hh] at hproc
    have hproc' : applyIds d1 layer.ShowIDs false = GoResult.ok doc' := hproc
    intro e he hid
    rw [applyIds_ok hproc'] at he
    rcases List.mem_map.mp he with ⟨e1, he1, hfe⟩
    have hid1 : hasId e1 id = true := by
      rw [← hasId_elemChain e1 layer.ShowIDs false id, hfe]
      exact hid
    rw [← hfe]
    exact elemChain_display false hshow hid1

/-- Witness for claim C6: a layer hiding and showing the same id `a`,
run on a one-element document; the element ends displayed `inline`. -/
theorem claim_C6_witness :
    expectedComponent false ∈ splitSemi (selectAttrValue
      (GoElement.mk [("id", "a"), ("style", ";display:inline")])
      "style" "").data ∧
    "display:inline".data = expectedComponent false :=
  ⟨(claim_C6 ⟨"_1", ["a"], ["a"]⟩ [GoElement.mk [("id", "a")]]
      [GoElement.mk [("id", "a"), ("style", ";display:inline")]] "a"
      (by decide) (by decide) (by decide)
      (GoElement.mk [("id", "a"), ("style", ";display:inline")])
      (by decide) (by decide)).1,
    (claim_C6 ⟨"_1", ["a"], ["a"]⟩ [GoElement.mk [("id", "a")]]
      [GoElement.mk [("id", "a"), ("style", ";display:inline")]] "a"
      (by decide) (by decide) (by decide)
      (GoElement.mk [("id", "a"), ("style", ";display:inline")])
      (by decide) (by decide)).2 "display:inline".data
      (by decide) (by decide)⟩

/-- Stripping the final four characters (`.svg`) and appending `.png`
turns a name ending in `.svg` into the same name ending in `.png`. -/
theorem pngPath_of_svg {l : List Char} :
    pngPath (String.mk (l ++ ".svg".data)) = String.mk (l ++ ".png".data) := by
  show String.mk ((l ++ ".svg".data).take ((l ++ ".svg".data).length - 4)
    ++ ".png".data) = String.mk (l ++ ".png".data)
  have h1 : (l ++ ".svg".data).length - 4 = l.length := by simp
  rw [h1, List.take_left l]

/-- The raster path derivation commutes with joining onto the output
directory: for an output base `stem.svg` the derived path is
`stem.png` in the same directory. -/
theorem pngPath_filepathJoin (dir stem : String) :
    pngPath (filepathJoin dir (stem ++ ".svg")) =
      filepathJoin dir (stem ++ ".png") := by
  by_cases hdir : dir = ""
  · simp only [filepathJoin, if_pos hdir]
    have h1 : stem ++ ".svg" = String.mk (stem.data ++ ".svg".data) := rfl
    have h2 : stem ++ ".png" = String.mk (stem.data ++ ".png".data) := rfl
    rw [h1, h2, pngPath_of_svg]
  · simp only [filepathJoin, if_neg hdir]
    have h1 : dir.data ++ '/' :: (stem ++ ".svg").data =
        (dir.data ++ '/' :: stem.data) ++ ".svg".data := by
      show dir.data ++ '/' :: (stem.data ++ ".svg".data) = _
      simp
    have h2 : dir.data ++ '/' :: (stem ++ ".png").data =
        (dir.data ++ '/' :: stem.data) ++ ".png".data := by
      show dir.data ++ '/' :: (stem.data ++ ".png".data) = _
      simp
    rw [h1, h2, pngPath_of_svg]

/-- A fatal-free layer loop produces exactly the per-layer write and
rasterize events, in layer order. -/
theorem processLayers_ok {layers : List ImageLayer} {doc : Document}
    {outDir outStem outExt : String} {evs : List Event}
    (h : processLayers layers doc outDir outStem outExt = (evs, none)) :
    evs = (layers.map (layerEvents outDir outStem outExt)).flatten := by
  induction layers generalizing doc evs with
  | nil =>
    have h1 : ([] : List Event) = evs := congrArg Prod.fst h
    rw [← h1]
    rfl
  | cons layer rest ih =>
    unfold processLayers at h
    cases hp : processLayerDoc layer doc with
    | fatal m =>
      rw [hp] at h
      have h2 : some m = (none : Option String) := congrArg Prod.snd h
      exact Option.noConfusion h2
    | ok doc' =>
      rw [hp] at h
      have h2 : (processLayers rest doc' outDir outStem outExt).2 = none :=
        congrArg Prod.snd h
      have h1 : Event.writeVector
            (filepathJoin outDir (outStem ++ layer.Suffix ++ outExt)) ::
          Event.rasterize
            (pngPath (filepathJoin outDir (outStem ++ layer.Suffix ++ outExt)))
            1280 720 (filepathJoin outDir (outStem ++ layer.Suffix ++ outExt)) ::
          (processLayers rest doc' outDir outStem outExt).1 = evs :=
        congrArg Prod.fst h
      have hrec : processLayers rest doc' outDir outStem outExt =
          ((processLayers rest doc' outDir outStem outExt).1, none) := by
        rw [← h2]
      rw [← h1, ih hrec]
      rfl

/-- Claim C7: when `processImage` completes without a fatal error on a
source whose base name has the extension `.svg`, its event trace is,
for each layer with suffix `S` in order: one vector write to
`outputDir/stem S.svg`, then exactly one rasterizer invocation whose
input is that path, whose output is `outputDir/stem S.png` (the input
path with the 4-character `.svg` suffix stripped and `.png` appended),
with the fixed dimensions 1280 by 720. -/
theorem claim_C7 (image : Image) (fs : String → StatResult) (doc : Document)
    (inDir outDir : String) (evs : List Event)
    (hrun : processImage image fs doc inDir outDir = (evs, none))
    (hext : filepathExt (filepathBase (sourcePath inDir image)) = ".svg") :
    evs = (image.Layers.map fun layer =>
      [Event.writeVector (filepathJoin outDir
          (stripSuffixLen (filepathBase (sourcePath inDir image)) ".svg"
            ++ layer.Suffix ++ ".svg")),
        Event.rasterize (filepathJoin outDir
            (stripSuffixLen (filepathBase (sourcePath inDir image)) ".svg"
              ++ layer.Suffix ++ ".png")) 1280 720
          (filepathJoin outDir
            (stripSuffixLen (filepathBase (sourcePath inDir image)) ".svg"
              ++ layer.Suffix ++ ".svg"))]).flatten := by
  unfold processImage at hrun
  rw [hext] at hrun
  cases hfs : fs (sourcePath inDir image) with
  | notFound =>
    rw [hfs] at hrun
    have h2 : some ("Source file needs to exist: " ++ sourcePath inDir image)
        = (none : Option String) := congrArg Prod.snd hrun
    exact Option.noConfusion h2
  | found regular =>
    rw [hfs] at hrun
    cases regular with
    | false =>
      have h2 : some ("Input file " ++ sourcePath inDir image
          ++ " is not regular file") = (none : Option String) :=
        congrArg Prod.snd hrun
      exact Option.noConfusion h2
    | true =>
      have hrun' : processLayers image.Layers doc outDir
          (stripSuffixLen (filepathBase (sourcePath inDir image)) ".svg")
          ".svg" = (evs, none) := hrun
      have hflat := processLayers_ok hrun'
      rw [hflat]
      have hfun : layerEvents outDir
          (stripSuffixLen (filepathBase (sourcePath inDir image)) ".svg")
          ".svg" = fun layer =>
          [Event.writeVector (filepathJoin outDir
              (stripSuffixLen (filepathBase (sourcePath inDir image)) ".svg"
                ++ layer.Suffix ++ ".svg")),
            Event.rasterize (filepathJoin outDir
                (stripSuffixLen (filepathBase (sourcePath inDir image)) ".svg"
                  ++ layer.Suffix ++ ".png")) 1280 720
              (filepathJoin outDir
                (stripSuffixLen (filepathBase (sourcePath inDir image)) ".svg"
                  ++ layer.Suffix ++ ".svg"))] := by
        funext layer
        show [Event.writeVector _, Event.rasterize (pngPath _) 1280 720 _] = _
        rw [pngPath_filepathJoin]
      rw [hfun]

/-- Witness for claim C7: a two-layer image processed successfully emits
exactly the four expected events with the expected names. -/
theorem claim_C7_witness :
    [Event.writeVector "out/a_1.svg",
      Event.rasterize "out/a_1.png" 1280 720 "out/a_1.svg",
      Event.writeVector "out/a_2.svg",
      Event.rasterize "out/a_2.png" 1280 720 "out/a_2.svg"] =
    ((Image.mk "a.svg" [ImageLayer.mk "_1" [] [], ImageLayer.mk "_2" [] []]
      ).Layers.map fun layer =>
      [Event.writeVector (filepathJoin "out"
          (stripSuffixLen (filepathBase (sourcePath "in"
              (Image.mk "a.svg"
                [ImageLayer.mk "_1" [] [], ImageLayer.mk "_2" [] []]))) ".svg"
            ++ layer.Suffix ++ ".svg")),
        Event.rasterize (filepathJoin "out"
            (stripSuffixLen (filepathBase (sourcePath "in"
                (Image.mk "a.svg"
                  [ImageLayer.mk "_1" [] [], ImageLayer.mk "_2" [] []]))) ".svg"
              ++ layer.Suffix ++ ".png")) 1280 720
          (filepathJoin "out"
            (stripSuffixLen (filepathBase (sourcePath "in"
                (Image.mk "a.svg"
                  [ImageLayer.mk "_1" [] [], ImageLayer.mk "_2" [] []]))) ".svg"
              ++ layer.Suffix ++ ".svg"))]).flatten :=
  claim_C7
    (Image.mk "a.svg" [ImageLayer.mk "_1" [] [], ImageLayer.mk "_2" [] []])
    (fun _ => StatResult.found true) [] "in" "out"
    [Event.writeVector "out/a_1.svg",
      Event.rasterize "out/a_1.png" 1280 720 "out/a_1.svg",
      Event.writeVector "out/a_2.svg",
      Event.rasterize "out/a_2.png" 1280 720 "out/a_2.svg"]
    (by decide) (by decide)

/-- Claim C8: when the resolved source path is missing, is not a regular
file, or its base name lacks a case-insensitive `.svg` extension,
`processImage` reports a fatal error and its trace contains no write or
rasterize event at all — the image terminates before producing output. -/
theorem claim_C8 (image : Image) (fs : String → StatResult) (doc : Document)
    (inDir outDir : String)
    (hbad : fs (sourcePath inDir image) = StatResult.notFound ∨
      fs (sourcePath inDir image) = StatResult.found false ∨
      strToLower (filepathExt (filepathBase (sourcePath inDir image)))
        ≠ ".svg") :
    (processImage image fs doc inDir outDir).1 = [] ∧
      (processImage image fs doc inDir outDir).2.isSome = true := by
  unfold processImage
  rcases hbad with h | h | h
  · rw [h]
    exact ⟨rfl, rfl⟩
  · rw [h]
    exact ⟨rfl, rfl⟩
  · cases hfs : fs (sourcePath inDir image) with
    | notFound => exact ⟨rfl, rfl⟩
    | found regular =>
      cases regular with
      | false => exact ⟨rfl, rfl⟩
      | true =>
        rw [if_neg h]
        exact ⟨rfl, rfl⟩

/-- Witness for claim C8: a missing source file yields an empty trace
and a fatal error. -/
theorem claim_C8_witness :
    (processImage (Image.mk "a.svg" [ImageLayer.mk "_1" [] []])
      (fun _ => StatResult.notFound) [] "in" "out").1 = [] ∧
    (processImage (Image.mk "a.svg" [ImageLayer.mk "_1" [] []])
      (fun _ => StatResult.notFound) [] "in" "out").2.isSome = true :=
  claim_C8 (Image.mk "a.svg" [ImageLayer.mk "_1" [] []])
    (fun _ => StatResult.notFound) [] "in" "out" (Or.inl rfl)

/-- Claim C9: `main` hands every image to `processImage` with the input
directory `filepath.Dir(configPath)`, so each source path resolves to
`dir(configPath)/filename`; in particular, whatever the filesystem
reports at any other path (such as one relative to the working
directory or to the output directory), a file missing at
`dir(configPath)/filename` is fatal and is reported under exactly that
path. -/
theorem claim_C9 (cfgPath outDir : String) (images : List Image)
    (image : Image) (fs : String → StatResult) (docFor : String → Document)
    (hmiss : fs (filepathJoin (filepathDir cfgPath) image.Filename)
      = StatResult.notFound) :
    runMain cfgPath outDir images fs docFor =
      runImages images fs docFor (filepathDir cfgPath) outDir ∧
    runMain cfgPath outDir [image] fs docFor =
      ([], some ("Source file needs to exist: " ++
        filepathJoin (filepathDir cfgPath) image.Filename)) := by
  constructor
  · rfl
  · unfold runMain runImages processImage sourcePath
    rw [hmiss]

/-- Witness for claim C9: with the config at `cfg/conf.yaml`, the source
`a.svg` is looked up at `cfg/a.svg`; the filesystem here reports every
other path (including `out/a.svg` and a bare `a.svg`) as an existing
regular file, yet the run fails on `cfg/a.svg`. -/
theorem claim_C9_witness :
    runMain "cfg/conf.yaml" "out" [Image.mk "a.svg" []]
      (fun p => if p = "cfg/a.svg" then StatResult.notFound
        else StatResult.found true) (fun _ => []) =
      ([], some ("Source file needs to exist: " ++
        filepathJoin (filepathDir "cfg/conf.yaml")
          (Image.mk "a.svg" []).Filename)) :=
  (claim_C9 "cfg/conf.yaml" "out" [] (Image.mk "a.svg" [])
    (fun p => if p = "cfg/a.svg" then StatResult.notFound
      else StatResult.found true) (fun _ => []) (by decide)).2

/-- Claim C10: when a style component carries the `display:` key
preceded by whitespace (as after `"; "`), the prefix test fails on the
leading space, so — when no other component passes the prefix test —
`setHidden` appends a fresh display declaration, leaving the original
whitespace-prefixed declaration in place and producing a style whose
components contain the `display:` key at least twice. -/
theorem claim_C10 (s : String) (hidden : Bool) (c ws rest : List Char)
    (hc : c ∈ splitSemi s.data)
    (hform : c = ws ++ displayKey ++ rest)
    (_hws : ws ≠ [])
    (_hsp : ∀ ch ∈ ws, ch = ' ')
    (hnone : ∀ x ∈ splitSemi s.data, isDisplayDecl x = false) :
    isDisplayDecl c = false ∧
    splitSemi (setHiddenStyle s hidden).data =
      splitSemi s.data ++ [expectedComponent hidden] ∧
    2 ≤ (splitSemi (setHiddenStyle s hidden).data).countP
      containsDisplayKey := by
  have hany : ¬ (splitSemi s.data).any isDisplayDecl = true := by
    rw [List.any_eq_false.mpr fun x hx => by simp [hnone x hx]]
    simp
  have hsplit : splitSemi (setHiddenStyle s hidden).data =
      splitSemi s.data ++ [expectedComponent hidden] := by
    rw [splitSemi_setHiddenStyle, setHiddenComponents_eq, if_neg hany]
  refine ⟨hnone c hc, hsplit, ?_⟩
  rw [hsplit, List.countP_append]
  have h1 : 1 ≤ (splitSemi s.data).countP containsDisplayKey := by
    refine List.countP_pos_iff.mpr ⟨c, hc, ?_⟩
    rw [hform]
    simp only [containsDisplayKey, decide_eq_true_eq]
    exact ⟨ws, rest, by simp⟩
  have h2 : List.countP containsDisplayKey [expectedComponent hidden] = 1 := by
    cases hidden <;> decide
  omega

/-- Witness for claim C10: the style `color:red; display:none`, whose
second component ` display:none` starts with a space, gains a second
display declaration when hidden. -/
theorem claim_C10_witness :
    isDisplayDecl (" display:none".data) = false ∧
    splitSemi (setHiddenStyle "color:red; display:none" true).data =
      splitSemi ("color:red; display:none" : String).data
        ++ [expectedComponent true] ∧
    2 ≤ (splitSemi (setHiddenStyle "color:red; display:none" true).data).countP
      containsDisplayKey :=
  claim_C10 "color:red; display:none" true (" display:none".data) [' ']
    ("none".data) (by decide) (by decide) (by decide) (by decide) (by decide)
